import Mathlib

/-
Formal model of the pull-request propagation engine in `merge_kernel_pr.py`.

The script expands glob-style branch patterns against the upstream branch
list, synchronizes fork branches with upstream, extracts the commits of a
merged pull request, cherry-picks them onto a local branch per target
branch, pushes and opens new pull requests, and finally marks the original
pull request as fully propagated via labels.

Strings are modelled as Lean `String`s; character-level operations of the
Python code (`re` matching, `split`, `strip`, `startswith`) are modelled on
`List Char` so that every definition is executable by the kernel.  Remote
services (GitHub API, git remotes) are modelled as explicit oracles passed
to the functions; mutations are recorded as explicit action values.
-/

deriving instance DecidableEq for Except

/- ## Branch pattern expansion (`pattern_to_regex`, `expand_branch_patterns`) -/

/-- Splitting a pattern at every wildcard character.  `pattern_to_regex`
escapes every regex metacharacter except `*` and maps `*` to `.*`; the
resulting regex is therefore fully described by the list of literal
segments between the wildcards, which is what this function computes
(the semantics of Python `pattern.split("*")`). -/
def splitOnStar : List Char → List (List Char)
  | [] => [[]]
  | c :: rest =>
    if c = '*' then [] :: splitOnStar rest
    else
      match splitOnStar rest with
      | [] => [[c]]
      | seg :: segs => (c :: seg) :: segs

/-- Model of `pattern_to_regex` (merge_kernel_pr.py lines 165-171): the
compiled regex `re.escape(pattern).replace("\*", ".*")` is represented by
its literal segments. -/
def pattern_to_regex (pattern : String) : List (List Char) :=
  splitOnStar pattern.data

/-- Scanning for an occurrence of the literal segment `seg` anywhere in
the string, continuing with `next` on the remainder after the occurrence:
the semantics of `.*` followed by a literal in the compiled regex. -/
def scanFor (seg : List Char) (next : List Char → Bool) : List Char → Bool
  | [] => seg.isEmpty && next []
  | c :: t => (seg.isPrefixOf (c :: t) && next ((c :: t).drop seg.length)) || scanFor seg next t

/-- Matcher for a regex of shape `.* seg₁ .* seg₂ ... .* segₙ` applied
somewhere in `s` with an arbitrary remainder after the last segment: the
continuation semantics of Python `re.match` after the first literal
segment has been consumed. -/
def gapMatch : List (List Char) → List Char → Bool
  | [], _ => true
  | seg :: segs, s => scanFor seg (gapMatch segs) s

/-- Matcher for the whole compiled regex under Python `re.match` semantics:
anchored at the start of the string (the first literal segment must occur
at position 0), not anchored at the end. -/
def reMatchSegs : List (List Char) → List Char → Bool
  | [], _ => true
  | seg :: segs, s => seg.isPrefixOf s && gapMatch segs (s.drop seg.length)

/-- Model of `re.match(pattern_to_regex(p), branch)` as used by
`expand_branch_patterns` (line 189). -/
def reMatch (pattern branch : String) : Bool :=
  reMatchSegs (pattern_to_regex pattern) branch.data

/-- Modelled from the spec: like `gapMatch` but the last literal segment
must end exactly at the end of the string (end anchoring). -/
def gapMatchEnd : List (List Char) → List Char → Bool
  | [], s => s.isEmpty
  | seg :: segs, s => scanFor seg (gapMatchEnd segs) s

/-- Modelled from the spec: the matcher the specification describes, a glob
compiled to a regex anchored at both the start and the end of the branch
name (`re.fullmatch` semantics).  Used to compare the specified behavior
with the source's `re.match`-based behavior. -/
def fullMatchSegs : List (List Char) → List Char → Bool
  | [], s => s.isEmpty
  | seg :: segs, s => seg.isPrefixOf s && gapMatchEnd segs (s.drop seg.length)

/-- Modelled from the spec: match of a whole branch name against a wildcard
pattern anchored at both ends. -/
def globFullMatch (pattern branch : String) : Bool :=
  fullMatchSegs (pattern_to_regex pattern) branch.data

/-- Declarative semantics of `gapMatch`: the string decomposes as
`w₁ ++ seg₁ ++ w₂ ++ seg₂ ++ ... ++ segₙ ++ rest` with arbitrary fillers,
the trailing rest being absorbed by the `nil` case. -/
inductive GapGlob : List (List Char) → List Char → Prop where
  | nil (s : List Char) : GapGlob [] s
  | cons (w seg : List Char) {segs : List (List Char)} {t : List Char} :
      GapGlob segs t → GapGlob (seg :: segs) (w ++ (seg ++ t))

/-- Declarative semantics of `gapMatchEnd`: as `GapGlob` but the last
segment reaches the end of the string. -/
inductive GapGlobEnd : List (List Char) → List Char → Prop where
  | nil : GapGlobEnd [] []
  | cons (w seg : List Char) {segs : List (List Char)} {t : List Char} :
      GapGlobEnd segs t → GapGlobEnd (seg :: segs) (w ++ (seg ++ t))

/-- Declarative semantics of a start-anchored (Python `re.match`) glob
match: the first literal segment occurs at position 0, the later segments
follow in order with arbitrary gaps, and an arbitrary suffix may remain. -/
def ReMatchSpec : List (List Char) → List Char → Prop
  | [], _ => True
  | seg :: segs, s => ∃ t, s = seg ++ t ∧ GapGlob segs t

/-- Declarative semantics of a fully anchored glob match: the segments
cover the whole string in order with arbitrary gaps in between. -/
def FullMatchSpec : List (List Char) → List Char → Prop
  | [], s => s = []
  | seg :: segs, s => ∃ t, s = seg ++ t ∧ GapGlobEnd segs t

/-- Loop of `expand_branch_patterns` (lines 182-197) over the target
patterns, accumulating the expanded set; a literal pattern absent from the
upstream branch set raises, modelled as `Except.error`. -/
def expandGo (upstream : Finset String) :
    List String → Finset String → Except String (Finset String)
  | [], acc => .ok acc
  | branch_pattern :: rest, acc =>
    if branch_pattern.data.contains '*' then
      expandGo upstream rest
        (acc ∪ upstream.filter (fun b => reMatch branch_pattern b = true))
    else if branch_pattern ∈ upstream then
      expandGo upstream rest (insert branch_pattern acc)
    else
      .error ("Branch " ++ branch_pattern ++ " does not exist in upstream repository")

/-- Model of `expand_branch_patterns` (lines 175-199): `upstream` is the
set of upstream branch names, `target_branches` the pattern list. -/
def expand_branch_patterns (upstream : Finset String)
    (target_branches : List String) : Except String (Finset String) :=
  expandGo upstream target_branches ∅

/- ## Local branch naming and creation (`create_local_branch`) -/

/-- The deterministic local branch name `pr/<pr_number>/<branch>`
(line 203). -/
def local_branch_name (pr_number : Nat) (branch : String) : String :=
  "pr/" ++ toString pr_number ++ "/" ++ branch

/-- Local git repository state visible to `create_local_branch`: local
heads (branch name to head commit), tracking configuration (branch name to
tracked remote ref), and the remote-tracking refs fetched from origin
(short ref name such as `origin/<branch>` to commit). -/
structure GitState where
  heads : List (String × String)
  tracking : List (String × String)
  remote_refs : List (String × String)
deriving DecidableEq

/-- Model of `create_local_branch` (lines 202-234).  If the local branch
`pr/<pr_number>/<base_branch_name>` already exists it is returned as-is
(early return at lines 208-210); otherwise it is created from
`origin/<base_branch_name>`, its commit set, and tracking configured when
`origin/<local name>` exists.  An unresolvable base remote ref raises. -/
def create_local_branch (git_repo : GitState) (base_branch_name : String)
    (pr_number : Nat) : Except String (GitState × String) :=
  let name := local_branch_name pr_number base_branch_name
  if (git_repo.heads.lookup name).isSome then
    .ok (git_repo, name)
  else
    match git_repo.remote_refs.lookup ("origin/" ++ base_branch_name) with
    | none => .error "remote reference for base branch is not valid"
    | some sha =>
      let st1 : GitState := { git_repo with heads := (name, sha) :: git_repo.heads }
      match st1.remote_refs.lookup ("origin/" ++ name) with
      | some _ =>
        .ok ({ st1 with tracking := (name, "origin/" ++ name) :: st1.tracking }, name)
      | none => .ok (st1, name)

/- ## Commit extraction (`get_commits_to_cherry_pick`) -/

/-- The fields of the source pull request consumed by the model: merged
flag, the commit shas reported by `pr.get_commits()`, and the merge commit
sha. -/
structure PullRequestInfo where
  number : Nat
  merged : Bool
  commit_shas : List String
  merge_commit_sha : String
deriving DecidableEq

/-- Model of `get_commits_to_cherry_pick` (lines 305-326).  `iter_commits r`
is the local repository's backward history walk starting at ref `r`
(newest first); `repo.iter_commits(r, max_count=n)` is its first `n`
elements.  For a merged pull request the code takes as many history
entries as the pull request has commits and reverses them; otherwise it
returns the empty list. -/
def get_commits_to_cherry_pick (iter_commits : String → List String)
    (pr : PullRequestInfo) : List String :=
  if pr.merged then
    ((iter_commits pr.merge_commit_sha).take pr.commit_shas.length).reverse
  else []

/- ## The per-branch pipeline of `main` (lines 536-598) -/

/-- The kinds of externally visible steps the per-branch loop of `main`
can perform. -/
inductive StepTag where
  | createLocalBranch
  | checkout
  | cherryPick
  | push
  | createPR
deriving DecidableEq

/-- A step tagged with the target branch it was performed for. -/
inductive PipelineAction where
  | createLocalBranch : String → PipelineAction
  | checkout : String → PipelineAction
  | cherryPick : String → PipelineAction
  | push : String → PipelineAction
  | createPR : String → PipelineAction
deriving DecidableEq

/-- Attaching a target branch name to a step tag. -/
def StepTag.toAction : StepTag → String → PipelineAction
  | .createLocalBranch, b => .createLocalBranch b
  | .checkout, b => .checkout b
  | .cherryPick, b => .cherryPick b
  | .push, b => .push b
  | .createPR, b => .createPR b

/-- The target branch an action was performed for. -/
def PipelineAction.branch : PipelineAction → String
  | .createLocalBranch b => b
  | .checkout b => b
  | .cherryPick b => b
  | .push b => b
  | .createPR b => b

/-- Environment of one iteration of the per-branch loop: the answer of
`pr_exists` before replay (line 540), the result of `pr_cherry_pick`
(line 549), the answer of the second `pr_exists` after the push
(line 587), and the interactive confirmation (lines 590-593). -/
structure BranchEnv where
  pr_exists_before : Bool
  cherry_pick_ok : Bool
  pr_exists_after_push : Bool
  user_confirms_create : Bool
deriving DecidableEq

/-- Environment of a whole run: whether the source pull request is merged,
and the per-branch environment. -/
structure RunEnv where
  pr_merged : Bool
  branch_env : String → BranchEnv

/-- The sequence of steps one iteration of the loop performs, following
lines 536-598: create or reuse the local branch; stop if `pr_exists`
(`continue`); otherwise checkout; if the source pull request is merged,
cherry-pick; on cherry-pick success push, and if no pull request exists
after the push and the user confirms, create one. -/
def step_actions (merged : Bool) (e : BranchEnv) : List StepTag :=
  StepTag.createLocalBranch ::
    (if e.pr_exists_before then []
     else
       StepTag.checkout ::
         (if merged then
            StepTag.cherryPick ::
              (if e.cherry_pick_ok then
                 StepTag.push ::
                   (if e.pr_exists_after_push then []
                    else if e.user_confirms_create then [StepTag.createPR] else [])
               else [])
          else []))

/-- One iteration of the per-branch loop, as branch-tagged actions. -/
def process_branch (env : RunEnv) (b : String) : List PipelineAction :=
  (step_actions env.pr_merged (env.branch_env b)).map (fun t => t.toAction b)

/-- The whole per-branch loop of `main` over the resolved target
branches. -/
def main_branch_loop (env : RunEnv) (branches : List String) : List PipelineAction :=
  branches.flatMap (process_branch env)

/- ## Fork synchronization (`sync_fork_branches`, lines 126-162) -/

/-- Hosting-API oracle for `sync_fork_branches`: branch lookup on the fork
and the parent, ref lookup on the fork, and the two mutating calls, each
returning either a value or the message of the raised exception. -/
structure SyncApi where
  forkGetBranch : String → Except String String
  parentGetBranch : String → Except String String
  forkGetRef : String → Except String String
  editRef : String → String → Except String Unit
  createRef : String → String → Except String Unit

/-- A mutation performed against the fork during synchronization. -/
inductive SyncAction where
  | editRef : String → String → SyncAction
  | createRef : String → String → SyncAction
deriving DecidableEq

/-- The `try` block of the per-branch body of `sync_fork_branches`
(lines 134-157): look the branch up in the fork, fetch the upstream
branch and the fork ref, no-op when up-to-date, otherwise edit the ref
unless dry-run.  Returns the mutations performed and whether an exception
escaped the block. -/
def sync_branch_try (api : SyncApi) (dry_run : Bool) (branch_name : String) :
    List SyncAction × Bool :=
  match api.forkGetBranch branch_name with
  | .error _ => ([], true)
  | .ok _ =>
    match api.parentGetBranch branch_name with
    | .error _ => ([], true)
    | .ok new_sha =>
      match api.forkGetRef branch_name with
      | .error _ => ([], true)
      | .ok current_sha =>
        if current_sha = new_sha then ([], false)
        else if dry_run then ([], false)
        else
          match api.editRef branch_name new_sha with
          | .ok _ => ([SyncAction.editRef branch_name new_sha], false)
          | .error _ => ([], true)

/-- The per-branch body including the `except` handler (lines 158-162):
any exception from the `try` block is answered by fetching the upstream
branch and creating the fork ref; an exception raised by the handler
itself propagates (`some` error). -/
def sync_branch (api : SyncApi) (dry_run : Bool) (branch_name : String) :
    List SyncAction × Option String :=
  match sync_branch_try api dry_run branch_name with
  | (acts, false) => (acts, none)
  | (acts, true) =>
    match api.parentGetBranch branch_name with
    | .error e => (acts, some e)
    | .ok sha =>
      match api.createRef branch_name sha with
      | .error e => (acts, some e)
      | .ok _ => (acts ++ [SyncAction.createRef branch_name sha], none)

/-- Model of `sync_fork_branches` (lines 126-162): the branches are
processed in order; a propagating exception aborts the loop, carrying the
mutations performed so far. -/
def sync_fork_branches (api : SyncApi) (branches_to_sync : List String)
    (dry_run : Bool) : List SyncAction × Option String :=
  match branches_to_sync with
  | [] => ([], none)
  | b :: bs =>
    match sync_branch api dry_run b with
    | (acts, some e) => (acts, some e)
    | (acts, none) =>
      let rest := sync_fork_branches api bs dry_run
      (acts ++ rest.1, rest.2)

/- ## Target branch selection in `main` (lines 490-502) -/

/-- Model of the target-set finalization in `main`: after
`expand_branch_patterns`, an empty expansion raises (lines 493-496), and
only afterwards is the source pull request's base branch removed from the
set (lines 500-502). -/
def select_target_branches (expanded : Finset String) (base_ref : String) :
    Except String (Finset String) :=
  if expanded.card = 0 then
    .error "No branches found in upstream matching patterns"
  else
    .ok (if base_ref ∈ expanded then expanded.erase base_ref else expanded)

/- ## Labels and completion marking (`labels_to_branches`, `pr_mark_merged`) -/

/-- The label namespace marker `pr:` as a character list. -/
def prLabelSep : List Char := ['p', 'r', ':']

/-- The chunk of `l` before the first occurrence of `sep`: together with
dropping the leading separator this models Python
`label.split("pr:")[1]`. -/
def takeUntilSep (sep : List Char) : List Char → List Char
  | [] => []
  | c :: rest =>
    if sep.isPrefixOf (c :: rest) then []
    else c :: takeUntilSep sep rest

/-- Whitespace stripping at both ends, modelling Python `str.strip()`. -/
def trimWs (l : List Char) : List Char :=
  ((l.dropWhile Char.isWhitespace).reverse.dropWhile Char.isWhitespace).reverse

/-- Model of `labels_to_branches` (lines 623-629): every label starting
with `pr:` contributes `label.split("pr:")[1].strip()`. -/
def labels_to_branches (labels : List String) : List String :=
  labels.filterMap (fun label =>
    if prLabelSep.isPrefixOf label.data then
      some (String.mk (trimWs (takeUntilSep prLabelSep (label.data.drop prLabelSep.length))))
    else none)

/-- The completion loop of `pr_mark_merged` (lines 640-646): `merged`
stays true only when every declared branch has a corresponding pull
request, the check stopping at the first missing one.  `ex s t` is the
`pr_exists` oracle for head branch `s` against base branch `t`. -/
def check_all_merged (ex : String → String → Bool) (pr_number : Nat) :
    List String → Bool
  | [] => true
  | branch :: rest =>
    if ex (local_branch_name pr_number branch) branch then
      check_all_merged ex pr_number rest
    else false

/-- Model of `pr_mark_merged` (lines 632-650): recover the declared
branches from the labels, drop the source pull request's own base branch,
and append the `pr-merged` label exactly when every remaining branch has a
corresponding pull request; the result is the final label list of the
source pull request. -/
def pr_mark_merged (ex : String → String → Bool) (pr_number : Nat)
    (labels : List String) (base_ref : String) : List String :=
  let branches := labels_to_branches labels
  let branches2 := if base_ref ∈ branches then branches.erase base_ref else branches
  if check_all_merged ex pr_number branches2 then labels ++ ["pr-merged"]
  else labels

/- ## Concrete inputs used in the closed statements below -/

/-- A hosting API in which the fork-side branch lookup fails as branch
missing, the parent-side lookup succeeds, and creation succeeds. -/
def forkMissingApi : SyncApi where
  forkGetBranch := fun _ => .error "404 branch not found"
  parentGetBranch := fun _ => .ok "sha-upstream"
  forkGetRef := fun _ => .error "unreachable"
  editRef := fun _ _ => .ok ()
  createRef := fun _ _ => .ok ()

/-- A hosting API in which the fork-side branch lookup fails with a
permission error rather than branch absence. -/
def permissionDeniedApi : SyncApi where
  forkGetBranch := fun _ => .error "403 permission denied"
  parentGetBranch := fun _ => .ok "sha-upstream"
  forkGetRef := fun _ => .error "unreachable"
  editRef := fun _ _ => .ok ()
  createRef := fun _ _ => .ok ()

/-- A hosting API in which the fork-side branch lookup fails and the
fallback creation also fails. -/
def createFailsApi : SyncApi where
  forkGetBranch := fun _ => .error "boom"
  parentGetBranch := fun _ => .ok "sha-upstream"
  forkGetRef := fun _ => .error "unreachable"
  editRef := fun _ _ => .ok ()
  createRef := fun _ _ => .error "422 create failed"

/-- A run in which an equivalent pull request already exists for branch
`release-1`. -/
def existsEnv : RunEnv where
  pr_merged := true
  branch_env := fun _ => ⟨true, true, false, true⟩

/-- A run in which the operator aborts the cherry-pick for `release-2`
while the other branches replay cleanly. -/
def abortEnvA : RunEnv where
  pr_merged := true
  branch_env := fun b =>
    if b = "release-2" then ⟨false, false, false, true⟩
    else ⟨false, true, false, true⟩

/-- The same run as `abortEnvA` except that the cherry-pick for
`release-2` succeeds. -/
def abortEnvB : RunEnv where
  pr_merged := true
  branch_env := fun b =>
    if b = "release-2" then ⟨false, true, false, true⟩
    else ⟨false, true, false, true⟩

/-- A concrete backward history walk: every ref sees the same three-commit
history, newest first. -/
def historyW : String → List String := fun _ => ["c3", "c2", "c1"]

/-- A concrete merged pull request with two commits. -/
def prInfoW : PullRequestInfo where
  number := 42
  merged := true
  commit_shas := ["s1", "s2"]
  merge_commit_sha := "m"

/-- A concrete local repository in which the branch `pr/42/release-1`
already exists. -/
def gitStateW : GitState where
  heads := [("pr/42/release-1", "sha0")]
  tracking := []
  remote_refs := [("origin/release-1", "sha9")]

/-- A concrete existence oracle granting a pull request to every head and
base pair. -/
def allExistOracle : String → String → Bool := fun _ _ => true

/- ## Lemmas: glob matching semantics -/

/-- Boolean list prefix test agrees with the existential decomposition. -/
theorem isPrefixOf_eq_true_iff (l1 l2 : List Char) :
    l1.isPrefixOf l2 = true ↔ ∃ t, l2 = l1 ++ t := by
  rw [ List.isPrefixOf_iff_prefix]
  constructor
  · rintro ⟨t, rfl⟩
    exact ⟨t, rfl⟩
  · rintro ⟨t, rfl⟩
    exact ⟨t, rfl⟩

/-- The scanner finds the segment exactly when the string splits around an
occurrence of it whose remainder satisfies the continuation. -/
theorem scanFor_eq_true_iff (seg : List Char) (next : List Char → Bool) :
    ∀ s, scanFor seg next s = true ↔ ∃ w t, s = w ++ (seg ++ t) ∧ next t = true := by
  intro s
  induction s with
  | nil =>
    simp only [scanFor, Bool.and_eq_true, List.isEmpty_iff]
    constructor
    · rintro ⟨rfl, h⟩
      exact ⟨[], [], rfl, h⟩
    · rintro ⟨w, t, h, hn⟩
      rcases List.append_eq_nil.mp h.symm with ⟨rfl, h2⟩
      rcases List.append_eq_nil.mp h2 with ⟨rfl, rfl⟩
      exact ⟨rfl, hn⟩
  | cons c rest ih =>
    simp only [scanFor, Bool.or_eq_true, Bool.and_eq_true]
    constructor
    · rintro (⟨hp, hn⟩ | hs)
      · rcases (isPrefixOf_eq_true_iff seg (c :: rest)).mp hp with ⟨t, ht⟩
        refine ⟨[], t, by simpa using ht, ?_⟩
        rwa [ht, List.drop_left] at hn
      · rcases ih.mp hs with ⟨w, t, rfl, hn⟩
        exact ⟨c :: w, t, rfl, hn⟩
    · rintro ⟨w, t, heq, hn⟩
      match w, heq with
      | [], heq =>
        left
        have hp : seg.isPrefixOf (c :: rest) = true :=
          (isPrefixOf_eq_true_iff seg (c :: rest)).mpr ⟨t, by simpa using heq⟩
        refine ⟨hp, ?_⟩
        have : (c :: rest) = seg ++ t := by simpa using heq
        rw [this, List.drop_left]
        exact hn
      | c2 :: w2, heq =>
        right
        have hc : c = c2 ∧ rest = w2 ++ (seg ++ t) := by
          simpa using heq
        exact ih.mpr ⟨w2, t, hc.2, hn⟩

/-- The executable gap matcher realizes the declarative prefix-style glob
semantics. -/
theorem gapMatch_eq_true_iff :
    ∀ (segs : List (List Char)) (s : List Char),
      gapMatch segs s = true ↔ GapGlob segs s := by
  intro segs
  induction segs with
  | nil =>
    intro s
    simp only [gapMatch]
    exact ⟨fun _ => GapGlob.nil s, fun _ => by trivial⟩
  | cons seg segs ih =>
    intro s
    simp only [gapMatch]
    rw [scanFor_eq_true_iff]
    constructor
    · rintro ⟨w, t, rfl, hn⟩
      exact GapGlob.cons w seg ((ih t).mp hn)
    · intro h
      cases h with
      | cons w seg ht => exact ⟨w, _, rfl, (ih _).mpr ht⟩

/-- The executable end-anchored gap matcher realizes the declarative
end-anchored glob semantics. -/
theorem gapMatchEnd_eq_true_iff :
    ∀ (segs : List (List Char)) (s : List Char),
      gapMatchEnd segs s = true ↔ GapGlobEnd segs s := by
  intro segs
  induction segs with
  | nil =>
    intro s
    simp only [gapMatchEnd, List.isEmpty_iff]
    constructor
    · rintro rfl
      exact GapGlobEnd.nil
    · intro h
      cases h
      rfl
  | cons seg segs ih =>
    intro s
    simp only [gapMatchEnd]
    rw [scanFor_eq_true_iff]
    constructor
    · rintro ⟨w, t, rfl, hn⟩
      exact GapGlobEnd.cons w seg ((ih t).mp hn)
    · intro h
      cases h with
      | cons w seg ht => exact ⟨w, _, rfl, (ih _).mpr ht⟩

/-- `reMatchSegs` realizes the start-anchored declarative semantics. -/
theorem reMatchSegs_eq_true_iff :
    ∀ (segs : List (List Char)) (s : List Char),
      reMatchSegs segs s = true ↔ ReMatchSpec segs s := by
  intro segs s
  cases segs with
  | nil => simp [reMatchSegs, ReMatchSpec]
  | cons seg segs =>
    simp only [reMatchSegs, ReMatchSpec, Bool.and_eq_true]
    constructor
    · rintro ⟨hp, hg⟩
      rcases (isPrefixOf_eq_true_iff seg s).mp hp with ⟨t, rfl⟩
      rw [List.drop_left] at hg
      exact ⟨t, rfl, (gapMatch_eq_true_iff segs t).mp hg⟩
    · rintro ⟨t, rfl, hg⟩
      refine ⟨(isPrefixOf_eq_true_iff seg _).mpr ⟨t, rfl⟩, ?_⟩
      rw [List.drop_left]
      exact (gapMatch_eq_true_iff segs t).mpr hg

/-- `fullMatchSegs` realizes the fully anchored declarative semantics. -/
theorem fullMatchSegs_eq_true_iff :
    ∀ (segs : List (List Char)) (s : List Char),
      fullMatchSegs segs s = true ↔ FullMatchSpec segs s := by
  intro segs s
  cases segs with
  | nil => simp [fullMatchSegs, FullMatchSpec, List.isEmpty_iff]
  | cons seg segs =>
    simp only [fullMatchSegs, FullMatchSpec, Bool.and_eq_true]
    constructor
    · rintro ⟨hp, hg⟩
      rcases (isPrefixOf_eq_true_iff seg s).mp hp with ⟨t, rfl⟩
      rw [List.drop_left] at hg
      exact ⟨t, rfl, (gapMatchEnd_eq_true_iff segs t).mp hg⟩
    · rintro ⟨t, rfl, hg⟩
      refine ⟨(isPrefixOf_eq_true_iff seg _).mpr ⟨t, rfl⟩, ?_⟩
      rw [List.drop_left]
      exact (gapMatchEnd_eq_true_iff segs t).mpr hg

/- ## Lemmas: pattern expansion -/

/-- The accumulator only grows along the expansion loop. -/
theorem expandGo_mono (upstream : Finset String) :
    ∀ (ts : List String) (acc r : Finset String),
      expandGo upstream ts acc = .ok r → acc ⊆ r := by
  intro ts
  induction ts with
  | nil =>
    intro acc r h
    simp only [expandGo, Except.ok.injEq] at h
    exact h ▸ Finset.Subset.refl acc
  | cons pat rest ih =>
    intro acc r h
    simp only [expandGo] at h
    split at h
    · exact Finset.Subset.trans Finset.subset_union_left (ih _ _ h)
    · split at h
      · exact Finset.Subset.trans (Finset.subset_insert _ _) (ih _ _ h)
      · cases h

/-- A literal pattern absent from upstream makes the whole expansion
fail, whatever the accumulator. -/
theorem expandGo_error_of_missing_literal (upstream : Finset String) :
    ∀ (ts : List String) (acc : Finset String) (p : String),
      p ∈ ts → p.data.contains '*' = false → p ∉ upstream →
      ∃ e, expandGo upstream ts acc = .error e := by
  intro ts
  induction ts with
  | nil =>
    intro acc p hp
    cases hp
  | cons pat rest ih =>
    intro acc p hp hlit hup
    rcases List.mem_cons.mp hp with rfl | hp2
    · simp only [expandGo, hlit]
      rw [if_neg (by simp)]
      rw [if_neg hup]
      exact ⟨_, rfl⟩
    · simp only [expandGo]
      split
      · exact ih _ p hp2 hlit hup
      · split
        · exact ih _ p hp2 hlit hup
        · exact ⟨_, rfl⟩

/-- A literal pattern present in upstream ends up in a successful
expansion result. -/
theorem expandGo_adds_literal (upstream : Finset String) :
    ∀ (ts : List String) (acc r : Finset String) (p : String),
      p ∈ ts → p.data.contains '*' = false → p ∈ upstream →
      expandGo upstream ts acc = .ok r → p ∈ r := by
  intro ts
  induction ts with
  | nil =>
    intro acc r p hp
    cases hp
  | cons pat rest ih =>
    intro acc r p hp hlit hup h
    rcases List.mem_cons.mp hp with rfl | hp2
    · rw [expandGo, if_neg (by rw [hlit]; simp), if_pos hup] at h
      exact expandGo_mono upstream rest _ r h (Finset.mem_insert_self p acc)
    · simp only [expandGo] at h
      split at h
      · exact ih _ _ p hp2 hlit hup h
      · split at h
        · exact ih _ _ p hp2 hlit hup h
        · cases h

/- ## Lemmas: the per-branch pipeline -/

/-- Tagging a step with a branch is injective in both components. -/
theorem toAction_inj (t u : StepTag) (b c : String) :
    t.toAction b = u.toAction c ↔ t = u ∧ b = c := by
  cases t <;> cases u <;> simp [StepTag.toAction]

/-- Membership in the loop output decomposes into the branch being
processed and the step occurring in its iteration. -/
theorem mem_main_branch_loop_iff (env : RunEnv) (branches : List String)
    (t : StepTag) (b : String) :
    t.toAction b ∈ main_branch_loop env branches ↔
      b ∈ branches ∧ t ∈ step_actions env.pr_merged (env.branch_env b) := by
  simp only [main_branch_loop, List.mem_flatMap, process_branch, List.mem_map]
  constructor
  · rintro ⟨b2, hb2, u, hu, heq⟩
    rcases (toAction_inj u t b2 b).mp heq with ⟨rfl, rfl⟩
    exact ⟨hb2, hu⟩
  · rintro ⟨hb, ht⟩
    exact ⟨b, hb, t, ht, rfl⟩

/-- When the pull request already exists, the iteration performs only the
local-branch creation or reuse step. -/
theorem step_actions_of_pr_exists (merged : Bool) (e : BranchEnv)
    (h : e.pr_exists_before = true) :
    step_actions merged e = [StepTag.createLocalBranch] := by
  simp [step_actions, h]

/-- When the cherry-pick fails, the iteration never pushes and never
creates a pull request. -/
theorem push_createPR_not_mem_step_actions (m : Bool) (e : BranchEnv)
    (h : e.cherry_pick_ok = false) :
    StepTag.push ∉ step_actions m e ∧ StepTag.createPR ∉ step_actions m e := by
  rcases e with ⟨pe, cp, pa, uc⟩
  simp only at h
  subst h
  cases pe <;> cases m <;> cases pa <;> cases uc <;> decide

/-- Every action of an iteration is tagged with the iteration's branch. -/
theorem branch_of_mem_process_branch (env : RunEnv) (b : String)
    (a : PipelineAction) (ha : a ∈ process_branch env b) : a.branch = b := by
  simp only [process_branch, List.mem_map] at ha
  rcases ha with ⟨t, _, rfl⟩
  cases t <;> rfl

/-- Removing an iteration's own branch from its actions leaves nothing. -/
theorem filter_process_branch_self (env : RunEnv) (b : String) :
    (process_branch env b).filter (fun a => a.branch != b) = [] := by
  rw [List.filter_eq_nil_iff]
  intro a ha
  simp [branch_of_mem_process_branch env b a ha]

/-- An iteration depends only on the merged flag and its own branch
environment. -/
theorem process_branch_congr (env env2 : RunEnv) (b : String)
    (hm : env.pr_merged = env2.pr_merged)
    (he : env.branch_env b = env2.branch_env b) :
    process_branch env b = process_branch env2 b := by
  simp [process_branch, hm, he]

/- ## Lemmas: completion check -/

/-- The early-exit completion loop agrees with the universal property. -/
theorem check_all_merged_eq_true_iff (ex : String → String → Bool) (n : Nat) :
    ∀ l : List String, check_all_merged ex n l = true ↔
      ∀ br ∈ l, ex (local_branch_name n br) br = true := by
  intro l
  induction l with
  | nil => simp [check_all_merged]
  | cons br rest ih =>
    simp only [check_all_merged, List.forall_mem_cons]
    by_cases h : ex (local_branch_name n br) br = true
    · simp [h, ih]
    · simp [h]

/- ## Claim theorems -/

/-- C1 (amended): for every wildcard branch pattern P and every upstream
branch set B, `expand_branch_patterns` returns exactly the subset of B
whose names match P compiled as a glob anchored at the start only (Python
`re.match` semantics): all regex metacharacters except the wildcard are
escaped, the wildcard matches any sequence of characters, the matcher is
anchored at the start of the branch name but not at its end; resolving
the same pattern twice yields the same set. -/
theorem C1_wildcard_expansion (B : Finset String) (P : String)
    (h : P.data.contains '*' = true) :
    expand_branch_patterns B [P] =
      .ok (B.filter (fun b => reMatch P b = true)) ∧
    (∀ b, b ∈ B.filter (fun b => reMatch P b = true) ↔
        b ∈ B ∧ ReMatchSpec (pattern_to_regex P) b.data) ∧
    expand_branch_patterns B [P] = expand_branch_patterns B [P] := by
  refine ⟨?_, ?_, rfl⟩
  · simp only [expand_branch_patterns, expandGo]
    rw [if_pos h, Finset.empty_union]
  · intro b
    rw [Finset.mem_filter, ← reMatchSegs_eq_true_iff]
    rfl

/-- Witness for C1 at a concrete wildcard pattern and branch set. -/
theorem C1_wildcard_expansion_witness :
    expand_branch_patterns {"eve-kernel-amd64-v6.1"} ["eve-kernel-*"] =
      .ok (({"eve-kernel-amd64-v6.1"} : Finset String).filter
        (fun b => reMatch "eve-kernel-*" b = true)) ∧
    ({"eve-kernel-amd64-v6.1"} : Finset String).filter
        (fun b => reMatch "eve-kernel-*" b = true) = {"eve-kernel-amd64-v6.1"} :=
  ⟨(C1_wildcard_expansion {"eve-kernel-amd64-v6.1"} "eve-kernel-*" (by decide)).1,
   by decide⟩

/-- C1 counterexample: the claim's matcher is anchored at both ends, but
the code's `re.match` is anchored at the start only.  For pattern `a*b`
and upstream set containing only `aXbY`, the code returns `{aXbY}`, yet
`aXbY` does not match `a*b` as a fully anchored glob, so the fully
anchored subset is empty. -/
theorem C1_counterexample :
    expand_branch_patterns {"aXbY"} ["a*b"] = Except.ok {"aXbY"} ∧
    ¬ FullMatchSpec (pattern_to_regex "a*b") "aXbY".data ∧
    ({"aXbY"} : Finset String).filter (fun b => globFullMatch "a*b" b = true) = ∅ := by
  refine ⟨by decide, ?_, by decide⟩
  intro hspec
  have hb : fullMatchSegs (pattern_to_regex "a*b") "aXbY".data = true :=
    (fullMatchSegs_eq_true_iff _ _).mpr hspec
  exact absurd hb (by decide)

/-- C9: for every literal (wildcard-free) pattern in the target list,
`expand_branch_patterns` fails with an error when that literal branch
name is absent from the upstream branch set, and when it is present the
literal is added to the result. -/
theorem C9_literal_branch (upstream : Finset String) (targets : List String)
    (p : String) (hmem : p ∈ targets) (hlit : p.data.contains '*' = false) :
    (p ∉ upstream → ∃ e, expand_branch_patterns upstream targets = Except.error e) ∧
    (p ∈ upstream → ∀ r, expand_branch_patterns upstream targets = Except.ok r → p ∈ r) := by
  constructor
  · intro hup
    exact expandGo_error_of_missing_literal upstream targets ∅ p hmem hlit hup
  · intro hup r hr
    exact expandGo_adds_literal upstream targets ∅ r p hmem hlit hup hr

/-- Witness for C9: a missing literal produces an error, and a present
literal lands in the result, at concrete inputs. -/
theorem C9_literal_branch_witness :
    (∃ e, expand_branch_patterns {"main"} ["release-1"] = Except.error e) ∧
    "main" ∈ ({"main", "release-1"} : Finset String) := by
  constructor
  · exact (C9_literal_branch {"main"} ["release-1"] "release-1"
      (by decide) (by decide)).1 (by decide)
  · decide

/-- C2: for every target branch for which an equivalent pull request
already exists for the (local branch `pr/<id>/<branch>`, target branch)
pair, the per-branch loop performs no push and no pull-request creation
for that branch, and the branch is skipped by the existence check before
any replay: no checkout and no cherry-pick occur either. -/
theorem C2_existing_pr_skips_branch (env : RunEnv) (branches : List String)
    (b : String) (h : (env.branch_env b).pr_exists_before = true) :
    PipelineAction.push b ∉ main_branch_loop env branches ∧
    PipelineAction.createPR b ∉ main_branch_loop env branches ∧
    PipelineAction.cherryPick b ∉ main_branch_loop env branches ∧
    PipelineAction.checkout b ∉ main_branch_loop env branches := by
  refine ⟨fun hm => ?_, fun hm => ?_, fun hm => ?_, fun hm => ?_⟩
  · have ht := ((mem_main_branch_loop_iff env branches .push b).mp hm).2
    rw [step_actions_of_pr_exists _ _ h] at ht
    exact absurd ht (by decide)
  · have ht := ((mem_main_branch_loop_iff env branches .createPR b).mp hm).2
    rw [step_actions_of_pr_exists _ _ h] at ht
    exact absurd ht (by decide)
  · have ht := ((mem_main_branch_loop_iff env branches .cherryPick b).mp hm).2
    rw [step_actions_of_pr_exists _ _ h] at ht
    exact absurd ht (by decide)
  · have ht := ((mem_main_branch_loop_iff env branches .checkout b).mp hm).2
    rw [step_actions_of_pr_exists _ _ h] at ht
    exact absurd ht (by decide)

/-- Witness for C2 at a concrete run in which the pull request already
exists for `release-1`. -/
theorem C2_existing_pr_skips_branch_witness :
    PipelineAction.push "release-1" ∉ main_branch_loop existsEnv ["release-1"] ∧
    PipelineAction.createPR "release-1" ∉ main_branch_loop existsEnv ["release-1"] ∧
    PipelineAction.cherryPick "release-1" ∉ main_branch_loop existsEnv ["release-1"] ∧
    PipelineAction.checkout "release-1" ∉ main_branch_loop existsEnv ["release-1"] :=
  C2_existing_pr_skips_branch existsEnv ["release-1"] "release-1" rfl

/-- C3: for every pull request, if it is merged with N commits the
extractor returns exactly N commits, obtained by walking the local
history backward from the merge-commit reference for N commits and
reversing so the oldest is first (assuming the merge commit's local
history is at least N commits deep, which the required upstream fetch
guarantees); if it is not merged it returns the empty list; extracting
twice yields identical ordered lists. -/
theorem C3_commit_extraction (iter_commits : String → List String)
    (pr : PullRequestInfo) :
    (pr.merged = false → get_commits_to_cherry_pick iter_commits pr = []) ∧
    (pr.merged = true →
      pr.commit_shas.length ≤ (iter_commits pr.merge_commit_sha).length →
      (get_commits_to_cherry_pick iter_commits pr).length = pr.commit_shas.length ∧
      get_commits_to_cherry_pick iter_commits pr =
        ((iter_commits pr.merge_commit_sha).take pr.commit_shas.length).reverse) ∧
    get_commits_to_cherry_pick iter_commits pr =
      get_commits_to_cherry_pick iter_commits pr := by
  refine ⟨fun h => by simp [get_commits_to_cherry_pick, h], fun h hlen => ?_, rfl⟩
  constructor
  · simp only [get_commits_to_cherry_pick, h, if_true, List.length_reverse,
      List.length_take]
    omega
  · simp [get_commits_to_cherry_pick, h]

/-- Witness for C3 at a concrete three-commit history and a merged
two-commit pull request. -/
theorem C3_commit_extraction_witness :
    (get_commits_to_cherry_pick historyW prInfoW).length = prInfoW.commit_shas.length ∧
    get_commits_to_cherry_pick historyW prInfoW =
      ((historyW prInfoW.merge_commit_sha).take prInfoW.commit_shas.length).reverse :=
  (C3_commit_extraction historyW prInfoW).2.1 rfl (by decide)

/-- C4: for every target branch whose replay the operator aborts
(`pr_cherry_pick` returns failure), the loop performs no push and no
pull-request creation for that branch, and the processing of every other
target branch is unaffected: two runs whose environments agree outside
the aborted branch produce identical actions for all other branches. -/
theorem C4_abort_is_isolated (env env2 : RunEnv) (branches : List String)
    (b : String) (hm : env.pr_merged = env2.pr_merged)
    (hagree : ∀ b2, b2 ≠ b → env.branch_env b2 = env2.branch_env b2)
    (habort : (env.branch_env b).cherry_pick_ok = false) :
    PipelineAction.push b ∉ main_branch_loop env branches ∧
    PipelineAction.createPR b ∉ main_branch_loop env branches ∧
    (main_branch_loop env branches).filter (fun a => a.branch != b) =
      (main_branch_loop env2 branches).filter (fun a => a.branch != b) := by
  refine ⟨fun hmem => ?_, fun hmem => ?_, ?_⟩
  · have ht := ((mem_main_branch_loop_iff env branches .push b).mp hmem).2
    exact absurd ht (push_createPR_not_mem_step_actions _ _ habort).1
  · have ht := ((mem_main_branch_loop_iff env branches .createPR b).mp hmem).2
    exact absurd ht (push_createPR_not_mem_step_actions _ _ habort).2
  · induction branches with
    | nil => rfl
    | cons b2 rest ih =>
      simp only [main_branch_loop, List.flatMap_cons, List.filter_append]
      simp only [main_branch_loop] at ih
      by_cases hb : b2 = b
      · subst hb
        rw [filter_process_branch_self env b2, filter_process_branch_self env2 b2, ih]
      · rw [process_branch_congr env env2 b2 hm (hagree b2 hb), ih]

/-- Witness for C4: the operator aborts `release-2`; the actions for
`release-1` are identical to the run in which `release-2` succeeds. -/
theorem C4_abort_is_isolated_witness :
    PipelineAction.push "release-2" ∉
      main_branch_loop abortEnvA ["release-1", "release-2"] ∧
    PipelineAction.createPR "release-2" ∉
      main_branch_loop abortEnvA ["release-1", "release-2"] ∧
    (main_branch_loop abortEnvA ["release-1", "release-2"]).filter
        (fun a => a.branch != "release-2") =
      (main_branch_loop abortEnvB ["release-1", "release-2"]).filter
        (fun a => a.branch != "release-2") :=
  C4_abort_is_isolated abortEnvA abortEnvB ["release-1", "release-2"] "release-2"
    rfl
    (fun b2 hb2 => by simp [abortEnvA, abortEnvB, hb2])
    (by simp [abortEnvA])

/-- C5: evaluation at the failing input.  With the dry-run flag set and a
target branch whose fork-side lookup raises (the branch is absent from
the fork), `sync_fork_branches` still performs the ref-creation mutation:
the creation path of the exception handler ignores the dry-run flag, so
the claim that dry-run performs no mutation is violated by the code. -/
theorem C5_dry_run_still_creates_ref :
    sync_fork_branches forkMissingApi ["release-1"] true =
      ([SyncAction.createRef "release-1" "sha-upstream"], none) := by
  decide

/-- C6 counterexample: an unexpected hosting-API failure (permission
denied on the fork-side branch lookup) does not propagate and does not
abort the run; the synchronizer instead responds with a different
mutation, creating the fork ref. -/
theorem C6_counterexample :
    sync_fork_branches permissionDeniedApi ["release-1"] false =
      ([SyncAction.createRef "release-1" "sha-upstream"], none) := by
  decide

/-- C6 (amended): any hosting-API failure inside the per-branch `try`
block (fork branch lookup, upstream branch lookup, fork ref read, or ref
update) is caught and answered by the creation path, which re-fetches the
upstream branch and creates the fork ref; only a failure raised by that
creation path itself (upstream lookup or ref creation) propagates and
aborts the whole run, leaving the remaining branches unprocessed. -/
theorem C6_sync_error_handling (api : SyncApi) (dry_run : Bool) (b : String)
    (bs : List String) (hexc : (sync_branch_try api dry_run b).2 = true) :
    (∀ e, api.parentGetBranch b = .error e →
        sync_fork_branches api (b :: bs) dry_run =
          ((sync_branch_try api dry_run b).1, some e)) ∧
    (∀ sha e, api.parentGetBranch b = .ok sha → api.createRef b sha = .error e →
        sync_fork_branches api (b :: bs) dry_run =
          ((sync_branch_try api dry_run b).1, some e)) ∧
    (∀ sha, api.parentGetBranch b = .ok sha → api.createRef b sha = .ok () →
        sync_branch api dry_run b =
          ((sync_branch_try api dry_run b).1 ++ [SyncAction.createRef b sha], none)) := by
  refine ⟨fun e he => ?_, fun sha e hs hc => ?_, fun sha hs hc => ?_⟩
  · rcases hst : sync_branch_try api dry_run b with ⟨acts, flag⟩
    rw [hst] at hexc
    simp only at hexc
    subst hexc
    simp [sync_fork_branches, sync_branch, hst, he]
  · rcases hst : sync_branch_try api dry_run b with ⟨acts, flag⟩
    rw [hst] at hexc
    simp only at hexc
    subst hexc
    simp [sync_fork_branches, sync_branch, hst, hs, hc]
  · rcases hst : sync_branch_try api dry_run b with ⟨acts, flag⟩
    rw [hst] at hexc
    simp only at hexc
    subst hexc
    simp [sync_branch, hst, hs, hc]

/-- Witness for C6 at a concrete API whose lookup fails and whose
fallback creation also fails: the creation-path error propagates and
aborts the run. -/
theorem C6_sync_error_handling_witness :
    sync_fork_branches createFailsApi ["release-1"] false =
      ((sync_branch_try createFailsApi false "release-1").1, some "422 create failed") :=
  (C6_sync_error_handling createFailsApi false "release-1" [] (by decide)).2.1
    "sha-upstream" "422 create failed" rfl rfl

/-- C7 counterexample: when the expansion resolves to exactly the source
pull request's base branch, the emptiness check (performed before the
base branch is removed) passes, and the run proceeds with an empty
processed set instead of failing with a hard error. -/
theorem C7_counterexample :
    select_target_branches {"main"} "main" = Except.ok (∅ : Finset String) := by
  decide

/-- C7 (amended): the run fails with a hard error exactly when the
expanded pattern set is empty, the check happening before the base branch
is excluded; otherwise the processed set is the expansion minus the base
branch — it never contains the base branch, but it may itself be empty
(when the expansion is exactly the base branch), in which case the run
proceeds and processes no branches. -/
theorem C7_target_set_selection (expanded : Finset String) (base_ref : String) :
    (expanded = ∅ →
      select_target_branches expanded base_ref =
        .error "No branches found in upstream matching patterns") ∧
    (expanded ≠ ∅ →
      select_target_branches expanded base_ref = .ok (expanded.erase base_ref) ∧
      base_ref ∉ expanded.erase base_ref) := by
  constructor
  · intro h
    subst h
    simp [select_target_branches]
  · intro h
    have hc : ¬ expanded.card = 0 := by
      simpa [Finset.card_eq_zero] using h
    refine ⟨?_, Finset.not_mem_erase _ _⟩
    rw [select_target_branches, if_neg hc]
    by_cases hb : base_ref ∈ expanded
    · rw [if_pos hb]
    · rw [if_neg hb, Finset.erase_eq_of_not_mem hb]

/-- Witness for C7 at a concrete non-empty expansion containing the base
branch. -/
theorem C7_target_set_selection_witness :
    select_target_branches {"release-1", "main"} "main" =
      .ok (({"release-1", "main"} : Finset String).erase "main") ∧
    "main" ∉ ({"release-1", "main"} : Finset String).erase "main" :=
  (C7_target_set_selection {"release-1", "main"} "main").2 (by decide)

/-- C8: `pr_mark_merged` appends the `pr-merged` label if and only if
every branch declared by the `pr:<branch>` labels, minus the pull
request's own base branch, has an existing corresponding pull request for
the pair (`pr/<id>/<branch>`, branch) according to the existence oracle;
otherwise the labels are returned unchanged. -/
theorem C8_mark_merged (ex : String → String → Bool) (pr_number : Nat)
    (labels : List String) (base_ref : String) :
    pr_mark_merged ex pr_number labels base_ref =
      (if ∀ br ∈ (labels_to_branches labels).erase base_ref,
          ex (local_branch_name pr_number br) br = true
       then labels ++ ["pr-merged"] else labels) := by
  have hbr : (if base_ref ∈ labels_to_branches labels
      then (labels_to_branches labels).erase base_ref
      else labels_to_branches labels) = (labels_to_branches labels).erase base_ref := by
    by_cases hb : base_ref ∈ labels_to_branches labels
    · rw [if_pos hb]
    · rw [if_neg hb, List.erase_of_not_mem hb]
  rw [pr_mark_merged]
  simp only [hbr]
  by_cases hall : ∀ br ∈ (labels_to_branches labels).erase base_ref,
      ex (local_branch_name pr_number br) br = true
  · rw [if_pos ((check_all_merged_eq_true_iff ex pr_number _).mpr hall), if_pos hall]
  · rw [if_neg ?hckf, if_neg hall]
    case hckf =>
      intro hck
      exact hall ((check_all_merged_eq_true_iff ex pr_number _).mp hck)

/-- C10: if the local branch `pr/<pr-number>/<target-branch>` already
exists, `create_local_branch` returns the existing branch and leaves the
repository state completely unchanged: the head commit is not reset and
no tracking configuration is touched. -/
theorem C10_existing_local_branch_reused (git_repo : GitState)
    (base_branch_name : String) (pr_number : Nat) (sha : String)
    (h : git_repo.heads.lookup (local_branch_name pr_number base_branch_name) = some sha) :
    create_local_branch git_repo base_branch_name pr_number =
      .ok (git_repo, local_branch_name pr_number base_branch_name) := by
  rw [create_local_branch]
  rw [if_pos (by rw [h]; rfl)]

/-- Witness for C10 at a concrete repository already holding
`pr/42/release-1`. -/
theorem C10_existing_local_branch_reused_witness :
    create_local_branch gitStateW "release-1" 42 =
      .ok (gitStateW, local_branch_name 42 "release-1") :=
  C10_existing_local_branch_reused gitStateW "release-1" 42 "sha0" (by decide)
